import Mathlib

/-!
Verification of `gp` (a concurrent "pull unmodified git repos" tool) against its
specification.  The development shallowly embeds `src/main.go`:

* subprocess execution is abstracted by a `RawResult` oracle (one per attempt),
  since the external `git` binary is outside the program;
* each send on the `printer` channel becomes an element of a returned message
  list, tagged with the source emission site (`MsgKind`) so that properties about
  "terminal-state messages" can be stated;
* the single-writer terminal loop (`processMsgs`) is embedded as a translation
  from the received message list to a list of terminal operations, which are then
  interpreted on a screen model.
-/

/-- Foreground colors used by the program (`term.Color` values referenced in
`main.go`; the darwin dark-mode remap is an out-of-scope environment probe, so
the default palette `black/blue/magenta/red` is used). -/
inductive Color
  | black
  | blue
  | magenta
  | red
  | cyan
  | white
deriving DecidableEq, BEq

/-- Text styles used by the program (`term.Normal`, `term.Bold`). -/
inductive Style
  | normal
  | bold
deriving DecidableEq, BEq

/-- The `msgInfo` struct of `main.go`: one unit of display output. -/
structure MsgInfo where
  msg : String
  row : Nat
  col : Nat
  color : Color
  style : Style
deriving DecidableEq, BEq

/-- Instrumentation tag identifying which `r.printer <- ...` site in `main.go`
emitted a message.  The four terminal-state sites are `failed`, `skippedDirty`,
`changed` and `noChanges`. -/
inductive MsgKind
  | label
  | bracketOpen
  | branchName
  | bracketClose
  | retryNotice
  | failed
  | skippedDirty
  | changed
  | noChanges
deriving DecidableEq, BEq

/-- Whether a message kind is one of the four terminal states of the task state
machine (Failed, SkippedDirty, Changed, NoChanges). -/
def MsgKind.isTerminal : MsgKind → Bool
  | MsgKind.failed => true
  | MsgKind.skippedDirty => true
  | MsgKind.changed => true
  | MsgKind.noChanges => true
  | _ => false

/-- A message as emitted by the embedded program: the `msgInfo` payload plus the
emission-site tag. -/
abbrev Msg := MsgKind × MsgInfo

/-- Raw outcome of one subprocess run: the captured combined stdout/stderr and,
when the run failed (non-zero exit or the 5-minute deadline), the text of the
underlying OS/process error. -/
structure RawResult where
  output : String
  failure : Option String
deriving DecidableEq

/-- The structured error built by `gitActual` via `errs.NewWithCause(c.String(), err)`:
it carries the invoked command line and the underlying cause. -/
structure GPError where
  cmd : String
  cause : String
deriving DecidableEq

/-- Rendered error text (`err.Error()`): the toolbox `errs` package renders the
message followed by its cause; the exact layout is abstracted as
`cmd ++ ": " ++ cause`. -/
def GPError.message (e : GPError) : String :=
  e.cmd ++ ": " ++ e.cause

/-- Go `unicode.IsSpace`: the Unicode White_Space characters. -/
def goIsSpace (c : Char) : Bool :=
  [' ', '\t', '\n', '\x0b', '\x0c', '\r', '\u0085', ' ', ' ',
   ' ', ' ', ' ', ' ', ' ', ' ', ' ',
   ' ', ' ', ' ', ' ', ' ', ' ', ' ',
   ' ', '　'].contains c

/-- Go `strings.TrimSpace`: drop leading and trailing whitespace. -/
def goTrimSpace (s : String) : String :=
  String.mk (((s.data.dropWhile goIsSpace).reverse.dropWhile goIsSpace).reverse)

/-- Helper for Go `strings.Contains`: does `sub` occur in the char list? -/
def containsAux (sub : List Char) : List Char → Bool
  | [] => sub.isEmpty
  | c :: rest => sub.isPrefixOf (c :: rest) || containsAux sub rest

/-- Go `strings.Contains s sub`. -/
def strContains (s sub : String) : Bool :=
  containsAux sub.data s.data

/-- The text before the first newline of `s` (the whole of `s` when it has
none); this is `msg = msg[:strings.Index(msg, "\n")]` in `processMsgs`. -/
def firstLine (s : String) : String :=
  String.mk (s.data.takeWhile (fun c => c ≠ '\n'))

/-- Helper for Go `strings.Split(s, "\n")`: accumulate the current (reversed)
segment while scanning. -/
def goSplitLinesAux (cur : List Char) : List Char → List String
  | [] => [String.mk cur.reverse]
  | c :: rest =>
    if c = '\n' then String.mk cur.reverse :: goSplitLinesAux [] rest
    else goSplitLinesAux (c :: cur) rest

/-- Go `strings.Split(s, "\n")`. -/
def goSplitNewline (s : String) : List String :=
  goSplitLinesAux [] s.data

/-- Join strings with single spaces (Go side of building the command line). -/
def joinSpace : List String → String
  | [] => ""
  | [s] => s
  | s :: rest => s ++ " " ++ joinSpace rest

/-- Model of `c.String()` of the built `exec.Cmd`: the binary followed by the
arguments, space-separated. -/
def cmdString (args : List String) : String :=
  joinSpace ("git" :: args)

/-- The Command Executor `gitActual` of `main.go`, with the subprocess outcome
supplied by `raw`: on failure it returns `""` plus an error carrying the command
line and the cause; on success the trimmed combined output. -/
def gitActual (path : String) (args : List String) (raw : RawResult) : String × Option GPError :=
  match raw.failure with
  | some cause => ("", some ⟨cmdString args, cause⟩)
  | none => (goTrimSpace raw.output, none)

/-- Go `strings.SplitAfterN(ikv, "=", 2)[0]` on the char list: the prefix up to
and including the first `=`, or the whole string when there is none. -/
def goKeyAfterEq : List Char → List Char
  | [] => []
  | c :: rest => if c = '=' then [c] else c :: goKeyAfterEq rest

/-- The key computed by `mergeEnvLists` for entry `ikv`:
`strings.SplitAfterN(ikv, "=", 2)[0] + "="`. -/
def mergeKey (ikv : String) : String :=
  String.mk (goKeyAfterEq ikv.data) ++ "="

/-- Go `strings.HasPrefix s p`. -/
def goStartsWith (s p : String) : Bool :=
  p.data.isPrefixOf s.data

/-- The inner loop of `mergeEnvLists`: replace the first element of the list
that starts with `k` by `ikv`; append `ikv` when none matches. -/
def mergeOne (k ikv : String) : List String → List String
  | [] => [ikv]
  | okv :: rest => if goStartsWith okv k then ikv :: rest else okv :: mergeOne k ikv rest

/-- The `mergeEnvLists` helper of `main.go`. -/
def mergeEnvLists (inl outl : List String) : List String :=
  inl.foldl (fun acc ikv => mergeOne (mergeKey ikv) ikv acc) outl

/-- Working directory and environment with which `gitActual` launches the
subprocess (`c.Dir = r.path; c.Env = mergeEnvLists([]string{"PWD=" + r.path}, os.Environ())`). -/
structure SpawnConfig where
  dir : String
  env : List String
deriving DecidableEq

/-- The spawn configuration `gitActual` builds for a working copy at `path`
given the caller's environment `environ`. -/
def spawnConfig (path : String) (environ : List String) : SpawnConfig :=
  ⟨path, mergeEnvLists ["PWD=" ++ path] environ⟩

/-- The retry-notice message sent by `(*repo).git` after a failed attempt:
`fmt.Sprintf("retry #%d for %s", i+1, err.Error())`, magenta/bold, at the
task's current row and column. -/
def retryMsg (row col attempt : Nat) (e : GPError) : Msg :=
  (MsgKind.retryNotice,
   ⟨"retry #" ++ toString attempt ++ " for " ++ e.message, row, col, Color.magenta, Style.bold⟩)

/-- The loop body of `(*repo).git`: attempt `i` with `fuel` further attempts
allowed.  On success return the result with no message; on failure emit the
retry notice (the source sends it after every failed attempt, the last
included) and either recurse or, out of fuel, return the last failure. -/
def gitGo (row col : Nat) (path : String) (args : List String) (raws : Nat → RawResult) :
    Nat → Nat → List Msg × String × Option GPError
  | i, 0 =>
    match gitActual path args (raws i) with
    | (res, none) => ([], res, none)
    | (res, some e) => ([retryMsg row col (i + 1) e], res, some e)
  | i, fuel + 1 =>
    match gitActual path args (raws i) with
    | (res, none) => ([], res, none)
    | (_, some e) =>
      match gitGo row col path args raws (i + 1) fuel with
      | (ms, rest) => (retryMsg row col (i + 1) e :: ms, rest)

/-- The Retrying Invoker `(*repo).git`: up to 5 attempts (`for i := 0; i < 5`),
returning the emitted messages, the final result string and the final error. -/
def gitCall (row col : Nat) (path : String) (args : List String) (raws : Nat → RawResult) :
    List Msg × String × Option GPError :=
  gitGo row col path args raws 0 4

/-- Argument vector of the branch-read step. -/
def branchArgs : List String := ["branch", "--show-current"]

/-- Argument vector of the status-check step. -/
def statusArgs : List String := ["status", "--porcelain"]

/-- Argument vector of the pull step. -/
def pullArgs : List String := ["pull"]

/-- A red/bold failure message at the task's current position. -/
def failedMsg (row col : Nat) (text : String) : Msg :=
  (MsgKind.failed, ⟨text, row, col, Color.red, Style.bold⟩)

/-- Whether a pull-output line contains the substring `" changed, "`. -/
def changedLine (s : String) : Bool :=
  strContains s " changed, "

/-- The classification loop of `processRepo` over the pull output split on
newlines: the first line containing `" changed, "` is trimmed and reported
magenta/bold; otherwise "no changes", blue/normal. -/
def classifyPull (row col : Nat) : List String → Msg
  | [] => (MsgKind.noChanges, ⟨"no changes", row, col, Color.blue, Style.normal⟩)
  | s :: rest =>
    if changedLine s then (MsgKind.changed, ⟨goTrimSpace s, row, col, Color.magenta, Style.bold⟩)
    else classifyPull row col rest

/-- The pull-and-classify tail of `processRepo`. -/
def pullStep (row col : Nat) (path : String) (praws : Nat → RawResult) : List Msg :=
  match gitCall row col path pullArgs praws with
  | (ms, _, some e) => ms ++ [failedMsg row col ("failed to pull: " ++ e.message)]
  | (ms, out, none) => ms ++ [classifyPull row col (goSplitNewline out)]

/-- The status-check tail of `processRepo`: failure is terminal; non-empty
output is terminal "skipped due to changes"; otherwise proceed to pull. -/
def statusStep (row col : Nat) (path : String) (sraws praws : Nat → RawResult) : List Msg :=
  match gitCall row col path statusArgs sraws with
  | (ms, _, some e) => ms ++ [failedMsg row col ("skipped due to error: " ++ e.message)]
  | (ms, out, none) =>
    if out ≠ "" then
      ms ++ [(MsgKind.skippedDirty, ⟨"skipped due to changes", row, col, Color.magenta, Style.bold⟩)]
    else ms ++ pullStep row col path praws

/-- The `repo` struct of `main.go` (the printer channel is implicit: emitted
messages are returned as a list). -/
structure Repo where
  path : String
  row : Nat
  col : Nat
deriving DecidableEq

/-- The Working-Copy Task `processRepo`: read the branch (terminal failure on
error; otherwise emit `"["`, the branch name, `"]"` and advance the column),
then run the status check and, when clean, the pull.  The three git calls are
driven by the per-attempt oracles `braws`, `sraws`, `praws`. -/
def processRepo (r : Repo) (braws sraws praws : Nat → RawResult) : List Msg :=
  match gitCall r.row r.col r.path branchArgs braws with
  | (ms, _, some e) => ms ++ [failedMsg r.row r.col ("skipped due to error: " ++ e.message)]
  | (ms, branch, none) =>
    ms ++ [(MsgKind.bracketOpen, ⟨"[", r.row, r.col, Color.black, Style.normal⟩),
           (MsgKind.branchName, ⟨branch, r.row, r.col + 1, Color.black, Style.bold⟩),
           (MsgKind.bracketClose, ⟨"]", r.row, r.col + 1 + branch.utf8ByteSize, Color.black, Style.normal⟩)]
      ++ statusStep r.row (r.col + branch.utf8ByteSize + 3) r.path sraws praws

/-- The row-label text the orchestrator prints for path `p`:
`fmt.Sprintf("%<longest>ds:", p)` (left-padded with spaces to the longest
label's width, followed by a colon). -/
def padLabel (longest : Nat) (p : String) : String :=
  String.mk (List.replicate (longest - p.length) ' ') ++ p ++ ":"

/-- The label message the orchestrator sends for the `i`-th working copy:
row `i + 1`, column 1, neutral color, normal style. -/
def mkLabelMsg (longest i : Nat) (p : String) : MsgInfo :=
  ⟨padLabel longest p, i + 1, 1, Color.black, Style.normal⟩

/-- All label messages the orchestrator sends, in discovery order. -/
def mkLabelMsgs (longest : Nat) (list : List String) : List MsgInfo :=
  (List.range list.length).map (fun i => mkLabelMsg longest i (list.getD i ""))

/-- The `repo` values the orchestrator builds: the `i`-th working copy gets
`row = i + 1` and starting column `longest + 3`. -/
def mkRepos (longest : Nat) (list : List String) : List Repo :=
  (List.range list.length).map (fun i => ⟨list.getD i "", i + 1, longest + 3⟩)

/-- Terminal operations issued by the Writer (the `term.ANSI` calls of
`processMsgs`). -/
inductive TermOp
  | foreground (color : Color) (style : Style)
  | position (row col : Nat)
  | print (text : String)
  | eraseLineToEnd
  | reset
deriving DecidableEq

/-- The Writer loop `processMsgs`, carrying the running maximum row: for each
message set color/style, position, print the first line, erase to end of line;
once the queue is drained, reset and park the cursor at `(maxRow + 1, 1)`. -/
def processMsgsGo : Nat → List MsgInfo → List TermOp
  | maxRow, [] => [TermOp.reset, TermOp.position (maxRow + 1) 1]
  | maxRow, m :: rest =>
    TermOp.foreground m.color m.style :: TermOp.position m.row m.col ::
      TermOp.print (firstLine m.msg) :: TermOp.eraseLineToEnd ::
        processMsgsGo (if maxRow < m.row then m.row else maxRow) rest

/-- The Writer `processMsgs` applied to the full received message sequence
(`maxRow` starts at 1). -/
def processMsgs (msgs : List MsgInfo) : List TermOp :=
  processMsgsGo 1 msgs

/-- One terminal screen cell: a character with the foreground color/style it
was written in. -/
structure Cell where
  ch : Char
  color : Color
  style : Style
deriving DecidableEq

/-- A cleared cell. -/
def Cell.blank : Cell :=
  ⟨' ', Color.black, Style.normal⟩

/-- Terminal model: screen contents plus cursor position and current
foreground color/style. -/
structure TermState where
  screen : Nat → Nat → Cell
  curRow : Nat
  curCol : Nat
  color : Color
  style : Style

/-- Semantics of one terminal operation. -/
def applyOp (st : TermState) : TermOp → TermState
  | TermOp.foreground c s => { st with color := c, style := s }
  | TermOp.position r c => { st with curRow := r, curCol := c }
  | TermOp.print s =>
    { st with
      screen := fun r c =>
        if r = st.curRow ∧ st.curCol ≤ c ∧ c < st.curCol + s.length then
          ⟨s.data.getD (c - st.curCol) ' ', st.color, st.style⟩
        else st.screen r c,
      curCol := st.curCol + s.length }
  | TermOp.eraseLineToEnd =>
    { st with
      screen := fun r c => if r = st.curRow ∧ st.curCol ≤ c then Cell.blank else st.screen r c }
  | TermOp.reset => { st with color := Color.black, style := Style.normal }

/-- Run a list of terminal operations. -/
def applyOps (st : TermState) (ops : List TermOp) : TermState :=
  ops.foldl applyOp st

/-- The terminal right after `t.Clear()`: blank screen, home cursor, default
color and style. -/
def clearedState : TermState :=
  ⟨fun _ _ => Cell.blank, 1, 1, Color.black, Style.normal⟩

/-- Render a message sequence on a cleared terminal through the Writer. -/
def runWriter (msgs : List MsgInfo) : TermState :=
  applyOps clearedState (processMsgs msgs)

/-- The pointwise effect of rendering one message on the cell at `(r, c)`:
inside the message's row it overwrites the printed span and blanks the rest of
the line from the text's end; other rows are untouched. -/
def pointStep (r c : Nat) (v : Cell) (m : MsgInfo) : Cell :=
  if r = m.row then
    if c < m.col then v
    else if c < m.col + (firstLine m.msg).length then
      ⟨(firstLine m.msg).data.getD (c - m.col) ' ', m.color, m.style⟩
    else Cell.blank
  else v

/-- The four operations the Writer issues for one message. -/
def msgOps (m : MsgInfo) : List TermOp :=
  [TermOp.foreground m.color m.style, TermOp.position m.row m.col,
   TermOp.print (firstLine m.msg), TermOp.eraseLineToEnd]

/-! ### Test fixtures: concrete attempt oracles -/

/-- Oracle whose every attempt succeeds with output `out`. -/
def okOracle (out : String) : Nat → RawResult :=
  fun _ => ⟨out, none⟩

/-- Oracle whose every attempt fails with cause `cause`. -/
def failOracle (cause : String) : Nat → RawResult :=
  fun _ => ⟨"", some cause⟩

/-- Oracle whose first attempt fails with `cause` and whose later attempts
succeed with output `out`. -/
def flakyOracle (cause out : String) : Nat → RawResult :=
  fun i => if i = 0 then ⟨"", some cause⟩ else ⟨out, none⟩

/-! ### Lemmas about the Retrying Invoker -/

theorem gitGo_ok (row col : Nat) (path : String) (args : List String)
    (raws : Nat → RawResult) (i : Nat) (h : (raws i).failure = none) :
    ∀ fuel, gitGo row col path args raws i fuel = ([], goTrimSpace (raws i).output, none) := by
  intro fuel
  cases fuel <;> simp [gitGo, gitActual, h]

theorem gitGo_zero_fail (row col : Nat) (path : String) (args : List String)
    (raws : Nat → RawResult) (i : Nat) (c : String) (h : (raws i).failure = some c) :
    gitGo row col path args raws i 0 =
      ([retryMsg row col (i + 1) ⟨cmdString args, c⟩], "", some ⟨cmdString args, c⟩) := by
  simp [gitGo, gitActual, h]

theorem gitGo_succ_fail (row col : Nat) (path : String) (args : List String)
    (raws : Nat → RawResult) (i : Nat) (c : String) (h : (raws i).failure = some c) (fuel : Nat) :
    gitGo row col path args raws i (fuel + 1) =
      (retryMsg row col (i + 1) ⟨cmdString args, c⟩ :: (gitGo row col path args raws (i + 1) fuel).1,
       (gitGo row col path args raws (i + 1) fuel).2) := by
  rcases hg : gitGo row col path args raws (i + 1) fuel with ⟨ms, rest⟩
  simp [gitGo, gitActual, h, hg]

theorem gitGo_msgs (row col : Nat) (path : String) (args : List String)
    (raws : Nat → RawResult) :
    ∀ fuel i, ∀ m ∈ (gitGo row col path args raws i fuel).1,
      m.1 = MsgKind.retryNotice ∧ m.2.row = row ∧ m.2.col = col := by
  intro fuel
  induction fuel with
  | zero =>
    intro i m hm
    rcases hr : (raws i).failure with _ | c
    · rw [gitGo_ok row col path args raws i hr 0] at hm
      simp at hm
    · rw [gitGo_zero_fail row col path args raws i c hr] at hm
      simp at hm
      subst hm
      exact ⟨rfl, rfl, rfl⟩
  | succ fuel ih =>
    intro i m hm
    rcases hr : (raws i).failure with _ | c
    · rw [gitGo_ok row col path args raws i hr (fuel + 1)] at hm
      simp at hm
    · rw [gitGo_succ_fail row col path args raws i c hr fuel] at hm
      rcases List.mem_cons.mp hm with h | h
      · subst h
        exact ⟨rfl, rfl, rfl⟩
      · exact ih (i + 1) m h

theorem gitCall_msgs (row col : Nat) (path : String) (args : List String)
    (raws : Nat → RawResult) :
    ∀ m ∈ (gitCall row col path args raws).1,
      m.1 = MsgKind.retryNotice ∧ m.2.row = row ∧ m.2.col = col :=
  gitGo_msgs row col path args raws 4 0

theorem gitGo_allFail (row col : Nat) (path : String) (args : List String)
    (raws : Nat → RawResult) (cs : Nat → String) :
    ∀ fuel i, (∀ j, j ≤ fuel → (raws (i + j)).failure = some (cs (i + j))) →
      (gitGo row col path args raws i fuel).1.length = fuel + 1 ∧
      (gitGo row col path args raws i fuel).2 = ("", some ⟨cmdString args, cs (i + fuel)⟩) := by
  intro fuel
  induction fuel with
  | zero =>
    intro i h
    have h0 : (raws i).failure = some (cs i) := by simpa using h 0 (Nat.le_refl 0)
    rw [gitGo_zero_fail row col path args raws i (cs i) h0]
    simp
  | succ fuel ih =>
    intro i h
    have h0 : (raws i).failure = some (cs i) := by simpa using h 0 (Nat.zero_le _)
    rw [gitGo_succ_fail row col path args raws i (cs i) h0 fuel]
    have hih := ih (i + 1) (fun j hj => by
      have hx := h (j + 1) (Nat.succ_le_succ hj)
      have e : i + (j + 1) = i + 1 + j := by omega
      rw [e] at hx
      exact hx)
    refine ⟨by simp [hih.1], ?_⟩
    have e2 : i + 1 + fuel = i + (fuel + 1) := by omega
    rw [e2] at hih
    exact hih.2

theorem gitCall_allFail (row col : Nat) (path : String) (args : List String)
    (raws : Nat → RawResult) (cs : Nat → String)
    (h : ∀ j, j ≤ 4 → (raws j).failure = some (cs j)) :
    (gitCall row col path args raws).1.length = 5 ∧
    (gitCall row col path args raws).2 = ("", some ⟨cmdString args, cs 4⟩) := by
  have hg := gitGo_allFail row col path args raws cs 4 0 (fun j hj => by simpa using h j hj)
  simpa [gitCall] using hg

theorem gitCall_first_ok (row col : Nat) (path : String) (args : List String)
    (raws : Nat → RawResult) (h : (raws 0).failure = none) :
    gitCall row col path args raws = ([], goTrimSpace (raws 0).output, none) :=
  gitGo_ok row col path args raws 0 h 4

/-! ### Lemmas about result classification -/

theorem classifyPull_kind (row col : Nat) (lines : List String) :
    (classifyPull row col lines).1.isTerminal = true ∧
    (classifyPull row col lines).2.row = row ∧ (classifyPull row col lines).2.col = col := by
  induction lines with
  | nil => exact ⟨rfl, rfl, rfl⟩
  | cons s rest ih =>
    by_cases h : changedLine s = true
    · simp [classifyPull, h, MsgKind.isTerminal]
    · simpa [classifyPull, h] using ih

theorem classifyPull_find_some (row col : Nat) (lines : List String) (s : String)
    (h : lines.find? changedLine = some s) :
    classifyPull row col lines =
      (MsgKind.changed, ⟨goTrimSpace s, row, col, Color.magenta, Style.bold⟩) := by
  induction lines with
  | nil => simp at h
  | cons a rest ih =>
    by_cases ha : changedLine a = true
    · rw [List.find?_cons_of_pos rest ha] at h
      have : a = s := by simpa using h
      subst this
      simp [classifyPull, ha]
    · rw [List.find?_cons_of_neg rest ha] at h
      simp [classifyPull, ha, ih h]

theorem classifyPull_find_none (row col : Nat) (lines : List String)
    (h : lines.find? changedLine = none) :
    classifyPull row col lines =
      (MsgKind.noChanges, ⟨"no changes", row, col, Color.blue, Style.normal⟩) := by
  induction lines with
  | nil => rfl
  | cons a rest ih =>
    rcases List.find?_eq_none.mp h a (List.mem_cons_self a rest) with ha
    have ha2 : ¬ changedLine a = true := by simpa using ha
    rw [List.find?_cons_of_neg rest ha2] at h
    simp [classifyPull, ha2, ih h]

/-! ### Unfolding lemmas for the task steps -/

theorem pullStep_fail (row col : Nat) (path : String) (praws : Nat → RawResult)
    (ms : List Msg) (out : String) (e : GPError)
    (hp : gitCall row col path pullArgs praws = (ms, out, some e)) :
    pullStep row col path praws = ms ++ [failedMsg row col ("failed to pull: " ++ e.message)] := by
  simp [pullStep, hp]

theorem pullStep_ok (row col : Nat) (path : String) (praws : Nat → RawResult)
    (ms : List Msg) (out : String)
    (hp : gitCall row col path pullArgs praws = (ms, out, none)) :
    pullStep row col path praws = ms ++ [classifyPull row col (goSplitNewline out)] := by
  simp [pullStep, hp]

theorem statusStep_fail (row col : Nat) (path : String) (sraws praws : Nat → RawResult)
    (ms : List Msg) (out : String) (e : GPError)
    (hs : gitCall row col path statusArgs sraws = (ms, out, some e)) :
    statusStep row col path sraws praws =
      ms ++ [failedMsg row col ("skipped due to error: " ++ e.message)] := by
  simp [statusStep, hs]

theorem statusStep_dirty (row col : Nat) (path : String) (sraws praws : Nat → RawResult)
    (ms : List Msg) (out : String)
    (hs : gitCall row col path statusArgs sraws = (ms, out, none)) (hne : out ≠ "") :
    statusStep row col path sraws praws =
      ms ++ [(MsgKind.skippedDirty, ⟨"skipped due to changes", row, col, Color.magenta, Style.bold⟩)] := by
  simp [statusStep, hs, hne]

theorem statusStep_clean (row col : Nat) (path : String) (sraws praws : Nat → RawResult)
    (ms : List Msg)
    (hs : gitCall row col path statusArgs sraws = (ms, "", none)) :
    statusStep row col path sraws praws = ms ++ pullStep row col path praws := by
  simp [statusStep, hs]

theorem processRepo_branch_fail (r : Repo) (braws sraws praws : Nat → RawResult)
    (ms : List Msg) (out : String) (e : GPError)
    (hb : gitCall r.row r.col r.path branchArgs braws = (ms, out, some e)) :
    processRepo r braws sraws praws =
      ms ++ [failedMsg r.row r.col ("skipped due to error: " ++ e.message)] := by
  simp [processRepo, hb]

theorem processRepo_branch_ok (r : Repo) (braws sraws praws : Nat → RawResult)
    (ms : List Msg) (br : String)
    (hb : gitCall r.row r.col r.path branchArgs braws = (ms, br, none)) :
    processRepo r braws sraws praws =
      ms ++ [(MsgKind.bracketOpen, ⟨"[", r.row, r.col, Color.black, Style.normal⟩),
             (MsgKind.branchName, ⟨br, r.row, r.col + 1, Color.black, Style.bold⟩),
             (MsgKind.bracketClose, ⟨"]", r.row, r.col + 1 + br.utf8ByteSize, Color.black, Style.normal⟩)]
        ++ statusStep r.row (r.col + br.utf8ByteSize + 3) r.path sraws praws := by
  simp [processRepo, hb]

/-! ### Shape of a task's message list: a non-terminal prefix plus one terminal message -/

theorem pullStep_shape (row col : Nat) (path : String) (praws : Nat → RawResult) :
    ∃ ms t, pullStep row col path praws = ms ++ [t] ∧
      (∀ m ∈ ms, m.1.isTerminal = false ∧ m.2.row = row) ∧
      t.1.isTerminal = true ∧ t.2.row = row := by
  have hmsgs := gitCall_msgs row col path pullArgs praws
  rcases hg : gitCall row col path pullArgs praws with ⟨ms, out, err⟩
  rw [hg] at hmsgs
  have hnt : ∀ m ∈ ms, m.1.isTerminal = false ∧ m.2.row = row := by
    intro m hm
    obtain ⟨h1, h2, _⟩ := hmsgs m hm
    refine ⟨?_, h2⟩
    rw [h1]
    rfl
  cases err with
  | some e =>
    exact ⟨ms, failedMsg row col ("failed to pull: " ++ e.message),
      pullStep_fail row col path praws ms out e hg, hnt, rfl, rfl⟩
  | none =>
    obtain ⟨hk, hr, _⟩ := classifyPull_kind row col (goSplitNewline out)
    exact ⟨ms, classifyPull row col (goSplitNewline out),
      pullStep_ok row col path praws ms out hg, hnt, hk, hr⟩

theorem statusStep_shape (row col : Nat) (path : String) (sraws praws : Nat → RawResult) :
    ∃ ms t, statusStep row col path sraws praws = ms ++ [t] ∧
      (∀ m ∈ ms, m.1.isTerminal = false ∧ m.2.row = row) ∧
      t.1.isTerminal = true ∧ t.2.row = row := by
  have hmsgs := gitCall_msgs row col path statusArgs sraws
  rcases hg : gitCall row col path statusArgs sraws with ⟨ms, out, err⟩
  rw [hg] at hmsgs
  have hnt : ∀ m ∈ ms, m.1.isTerminal = false ∧ m.2.row = row := by
    intro m hm
    obtain ⟨h1, h2, _⟩ := hmsgs m hm
    refine ⟨?_, h2⟩
    rw [h1]
    rfl
  cases err with
  | some e =>
    exact ⟨ms, failedMsg row col ("skipped due to error: " ++ e.message),
      statusStep_fail row col path sraws praws ms out e hg, hnt, rfl, rfl⟩
  | none =>
    by_cases hout : out = ""
    · subst hout
      obtain ⟨ms2, t, heq, hnt2, hterm, hrow⟩ := pullStep_shape row col path praws
      refine ⟨ms ++ ms2, t, ?_, ?_, hterm, hrow⟩
      · rw [statusStep_clean row col path sraws praws ms hg, heq, List.append_assoc]
      · intro m hm
        rcases List.mem_append.mp hm with h | h
        · exact hnt m h
        · exact hnt2 m h
    · exact ⟨ms, (MsgKind.skippedDirty, ⟨"skipped due to changes", row, col, Color.magenta, Style.bold⟩),
        statusStep_dirty row col path sraws praws ms out hg hout, hnt, rfl, rfl⟩

theorem processRepo_shape (r : Repo) (braws sraws praws : Nat → RawResult) :
    ∃ ms t, processRepo r braws sraws praws = ms ++ [t] ∧
      (∀ m ∈ ms, m.1.isTerminal = false ∧ m.2.row = r.row) ∧
      t.1.isTerminal = true ∧ t.2.row = r.row := by
  have hmsgs := gitCall_msgs r.row r.col r.path branchArgs braws
  rcases hg : gitCall r.row r.col r.path branchArgs braws with ⟨ms, out, err⟩
  rw [hg] at hmsgs
  have hnt : ∀ m ∈ ms, m.1.isTerminal = false ∧ m.2.row = r.row := by
    intro m hm
    obtain ⟨h1, h2, _⟩ := hmsgs m hm
    refine ⟨?_, h2⟩
    rw [h1]
    rfl
  cases err with
  | some e =>
    exact ⟨ms, failedMsg r.row r.col ("skipped due to error: " ++ e.message),
      processRepo_branch_fail r braws sraws praws ms out e hg, hnt, rfl, rfl⟩
  | none =>
    obtain ⟨ms2, t, heq, hnt2, hterm, hrow⟩ :=
      statusStep_shape r.row (r.col + out.utf8ByteSize + 3) r.path sraws praws
    refine ⟨ms ++ [(MsgKind.bracketOpen, ⟨"[", r.row, r.col, Color.black, Style.normal⟩),
                   (MsgKind.branchName, ⟨out, r.row, r.col + 1, Color.black, Style.bold⟩),
                   (MsgKind.bracketClose, ⟨"]", r.row, r.col + 1 + out.utf8ByteSize, Color.black, Style.normal⟩)]
              ++ ms2, t, ?_, ?_, hterm, hrow⟩
    · rw [processRepo_branch_ok r braws sraws praws ms out hg, heq]
      simp [List.append_assoc]
    · intro m hm
      rcases List.mem_append.mp hm with h | h
      · rcases List.mem_append.mp h with h2 | h2
        · exact hnt m h2
        · have h4 : m = (MsgKind.bracketOpen, ⟨"[", r.row, r.col, Color.black, Style.normal⟩) ∨
              m = (MsgKind.branchName, ⟨out, r.row, r.col + 1, Color.black, Style.bold⟩) ∨
              m = (MsgKind.bracketClose, ⟨"]", r.row, r.col + 1 + out.utf8ByteSize, Color.black, Style.normal⟩) := by
            simpa using h2
          rcases h4 with h3 | h3 | h3 <;> rw [h3] <;> exact ⟨rfl, rfl⟩
      · exact hnt2 m h

/-! ### Orchestrator row assignment -/

theorem mkRepos_rows (longest : Nat) (list : List String) :
    (mkRepos longest list).map Repo.row = List.range' 1 list.length := by
  rw [List.range'_eq_map_range]
  simp only [mkRepos, List.map_map]
  apply List.map_congr_left
  intro i _
  simp [Nat.add_comm]

theorem mkLabelMsgs_rows (longest : Nat) (list : List String) :
    (mkLabelMsgs longest list).map MsgInfo.row = List.range' 1 list.length := by
  rw [List.range'_eq_map_range]
  simp only [mkLabelMsgs, List.map_map]
  apply List.map_congr_left
  intro i _
  simp [mkLabelMsg, Nat.add_comm]

/-! ### Writer lemmas -/

theorem processMsgsGo_spec (msgs : List MsgInfo) :
    ∀ maxRow : Nat, processMsgsGo maxRow msgs = (msgs.map msgOps).flatten ++
      [TermOp.reset,
       TermOp.position (msgs.foldl (fun a m => if a < m.row then m.row else a) maxRow + 1) 1] := by
  induction msgs with
  | nil => intro maxRow; simp [processMsgsGo]
  | cons m rest ih => intro maxRow; simp [processMsgsGo, msgOps, ih]

theorem foldl_stepmax_eq_max (l : List MsgInfo) :
    ∀ a : Nat, l.foldl (fun a m => if a < m.row then m.row else a) a =
      (l.map MsgInfo.row).foldl Nat.max a := by
  induction l with
  | nil => intro a; rfl
  | cons m rest ih =>
    intro a
    have h : (if a < m.row then m.row else a) = Nat.max a m.row := by
      show _ = if a ≤ m.row then m.row else a
      split_ifs <;> omega
    simp only [List.foldl_cons, List.map_cons, h]
    exact ih (Nat.max a m.row)

theorem foldl_max_init (l : List Nat) :
    ∀ a b : Nat, l.foldl Nat.max (Nat.max a b) = Nat.max a (l.foldl Nat.max b) := by
  induction l with
  | nil => intro a b; rfl
  | cons x rest ih =>
    intro a b
    show rest.foldl Nat.max (Nat.max (Nat.max a b) x) = Nat.max a (rest.foldl Nat.max (Nat.max b x))
    have hassoc : Nat.max (Nat.max a b) x = Nat.max a (Nat.max b x) := by
      show (if (if a ≤ b then b else a) ≤ x then x else if a ≤ b then b else a) =
        if a ≤ if b ≤ x then x else b then (if b ≤ x then x else b) else a
      split_ifs <;> omega
    rw [hassoc]
    exact ih a (Nat.max b x)

theorem init_le_foldl_max (l : List Nat) :
    ∀ b : Nat, b ≤ l.foldl Nat.max b := by
  induction l with
  | nil => intro b; exact Nat.le_refl b
  | cons x rest ih =>
    intro b
    have hle : b ≤ Nat.max b x := by
      show b ≤ if b ≤ x then x else b
      split_ifs <;> omega
    exact Nat.le_trans hle (ih (Nat.max b x))

theorem le_foldl_max (l : List Nat) :
    ∀ a b : Nat, a ∈ l → a ≤ l.foldl Nat.max b := by
  induction l with
  | nil => intro a b h; simp at h
  | cons x rest ih =>
    intro a b h
    rcases List.mem_cons.mp h with h | h
    · subst h
      have hle : a ≤ Nat.max b a := by
        show a ≤ if b ≤ a then a else b
        split_ifs <;> omega
      exact Nat.le_trans hle (init_le_foldl_max rest (Nat.max b a))
    · exact ih a (Nat.max b x) h

theorem msgOps_screen (st : TermState) (m : MsgInfo) (r c : Nat) :
    (applyOps st (msgOps m)).screen r c = pointStep r c (st.screen r c) m := by
  simp only [applyOps, msgOps, List.foldl_cons, List.foldl_nil, applyOp]
  by_cases hr : r = m.row
  · simp only [pointStep, hr, if_pos rfl, true_and]
    by_cases h1 : c < m.col
    · have h2 : ¬ (m.col + (firstLine m.msg).length ≤ c) := by omega
      have h3 : ¬ (m.col ≤ c ∧ c < m.col + (firstLine m.msg).length) := by omega
      simp [h1, h2, h3]
    · by_cases h4 : c < m.col + (firstLine m.msg).length
      · have h2 : ¬ (m.col + (firstLine m.msg).length ≤ c) := by omega
        have h3 : m.col ≤ c ∧ c < m.col + (firstLine m.msg).length := by omega
        simp [h1, h2, h3, h4]
      · have h2 : m.col + (firstLine m.msg).length ≤ c := by omega
        simp [h1, h2, h4]
  · simp [pointStep, hr]

theorem writer_screen_pointwise (msgs : List MsgInfo) :
    ∀ (maxRow : Nat) (st : TermState) (r c : Nat),
      (applyOps st (processMsgsGo maxRow msgs)).screen r c =
        msgs.foldl (pointStep r c) (st.screen r c) := by
  induction msgs with
  | nil => intro maxRow st r c; rfl
  | cons m rest ih =>
    intro maxRow st r c
    have h4 : applyOps st (processMsgsGo maxRow (m :: rest)) =
        applyOps (applyOps st (msgOps m))
          (processMsgsGo (if maxRow < m.row then m.row else maxRow) rest) := rfl
    rw [h4, ih, msgOps_screen]
    rfl

theorem foldl_pointStep_filter (r c : Nat) (l : List MsgInfo) :
    ∀ v : Cell, l.foldl (pointStep r c) v =
      (l.filter (fun m => decide (m.row = r))).foldl (pointStep r c) v := by
  induction l with
  | nil => intro v; rfl
  | cons m rest ih =>
    intro v
    by_cases h : m.row = r
    · simp only [List.filter_cons, decide_eq_true h, List.foldl_cons]
      exact ih (pointStep r c v m)
    · have hps : pointStep r c v m = v := by
        unfold pointStep
        rw [if_neg (fun hh => h hh.symm)]
      simp only [List.filter_cons, decide_eq_false h, List.foldl_cons, hps]
      exact ih v

/-! ### Claim theorems -/

/-- C10: whenever a Command Executor invocation fails (non-zero exit or
timeout), the output string returned to the caller is empty — the captured
combined output `o` is discarded — and the returned error carries only the
command line and the underlying cause. -/
theorem c10_failure_discards_output (path : String) (args : List String) (o c : String) :
    gitActual path args ⟨o, some c⟩ = ("", some ⟨cmdString args, c⟩) :=
  rfl

/-- C7 (code bug witness): for a caller environment holding `PWD=/old`, the
computed replace key is `"PWD=="` (the `SplitAfterN` result already ends in
`=`), which never matches, so `mergeEnvLists` appends a second `PWD` entry
instead of replacing the existing one. -/
theorem c7_env_append_bug :
    spawnConfig "/repo" ["HOME=/root", "PWD=/old"] =
      ⟨"/repo", ["HOME=/root", "PWD=/old", "PWD=/repo"]⟩ ∧
    mergeKey "PWD=/repo" = "PWD==" ∧
    goStartsWith "PWD=/old" "PWD==" = false := by
  refine ⟨?_, rfl, rfl⟩
  decide

/-- C2: the orchestrator assigns the N working copies the distinct rows
1..N (and labels exactly those rows), every message a task emits targets its
own row, and each task's message list ends with exactly one terminal-state
message (Failed, SkippedDirty, Changed or NoChanges) — never zero, never more
than one. -/
theorem c2_rows_and_unique_terminal (longest : Nat) (list : List String)
    (r : Repo) (braws sraws praws : Nat → RawResult) :
    (mkRepos longest list).map Repo.row = List.range' 1 list.length ∧
    (mkLabelMsgs longest list).map MsgInfo.row = List.range' 1 list.length ∧
    ((mkRepos longest list).map Repo.row).Nodup ∧
    processRepo r braws sraws praws ≠ [] ∧
    (∀ m ∈ processRepo r braws sraws praws, m.2.row = r.row) ∧
    (processRepo r braws sraws praws).countP (fun m => m.1.isTerminal) = 1 ∧
    (∃ t, (processRepo r braws sraws praws).getLast? = some t ∧ t.1.isTerminal = true) := by
  obtain ⟨ms, t, heq, hnt, hterm, hrow⟩ := processRepo_shape r braws sraws praws
  refine ⟨mkRepos_rows longest list, mkLabelMsgs_rows longest list, ?_, ?_, ?_, ?_, ?_⟩
  · rw [mkRepos_rows]
    exact List.nodup_range' 1 list.length
  · rw [heq]
    simp
  · rw [heq]
    intro m hm
    rcases List.mem_append.mp hm with h | h
    · exact (hnt m h).2
    · have hmt : m = t := by simpa using h
      rw [hmt]
      exact hrow
  · rw [heq, List.countP_append]
    have h0 : ms.countP (fun m => m.1.isTerminal) = 0 :=
      List.countP_eq_zero.mpr (fun m hm => by simp [(hnt m hm).1])
    simp [h0, List.countP_cons, hterm]
  · rw [heq]
    exact ⟨t, List.getLast?_concat ms, hterm⟩

/-- C3: a working copy whose status check succeeds with non-empty output
reaches the terminal message "skipped due to changes" (magenta/bold) and never
invokes pull — the entire task output is independent of the pull oracle. -/
theorem c3_dirty_skips_pull (r : Repo) (braws sraws praws : Nat → RawResult)
    (ms1 ms2 : List Msg) (br sout : String)
    (hb : gitCall r.row r.col r.path branchArgs braws = (ms1, br, none))
    (hs : gitCall r.row (r.col + br.utf8ByteSize + 3) r.path statusArgs sraws = (ms2, sout, none))
    (hne : sout ≠ "") :
    (processRepo r braws sraws praws).getLast? =
      some (MsgKind.skippedDirty,
        ⟨"skipped due to changes", r.row, r.col + br.utf8ByteSize + 3, Color.magenta, Style.bold⟩) ∧
    ∀ praws2 : Nat → RawResult, processRepo r braws sraws praws2 = processRepo r braws sraws praws := by
  have key : ∀ pr : Nat → RawResult, processRepo r braws sraws pr =
      ms1 ++ [(MsgKind.bracketOpen, ⟨"[", r.row, r.col, Color.black, Style.normal⟩),
              (MsgKind.branchName, ⟨br, r.row, r.col + 1, Color.black, Style.bold⟩),
              (MsgKind.bracketClose, ⟨"]", r.row, r.col + 1 + br.utf8ByteSize, Color.black, Style.normal⟩)]
        ++ (ms2 ++ [(MsgKind.skippedDirty,
              ⟨"skipped due to changes", r.row, r.col + br.utf8ByteSize + 3, Color.magenta, Style.bold⟩)]) := by
    intro pr
    rw [processRepo_branch_ok r braws sraws pr ms1 br hb,
        statusStep_dirty r.row (r.col + br.utf8ByteSize + 3) r.path sraws pr ms2 sout hs hne]
  constructor
  · rw [key praws, ← List.append_assoc]
    exact List.getLast?_concat _
  · intro pr2
    rw [key praws, key pr2]

/-- C3 witness: a concrete clean-branch, dirty-status run ends in the
"skipped due to changes" message. -/
theorem c3_witness :
    (processRepo ⟨"p", 1, 13⟩ (okOracle "main") (okOracle " M x.go") (okOracle "")).getLast? =
      some (MsgKind.skippedDirty, ⟨"skipped due to changes", 1, 20, Color.magenta, Style.bold⟩) :=
  (c3_dirty_skips_pull ⟨"p", 1, 13⟩ (okOracle "main") (okOracle " M x.go") (okOracle "")
    [] [] "main" "M x.go" rfl rfl (by decide)).1

/-- C4: after a successful pull, the first output line containing the
substring " changed, " (if any) is reported, trimmed of surrounding
whitespace, as the terminal message in magenta/bold; when no such line exists
the terminal message is "no changes" in blue/normal. -/
theorem c4_pull_classification (r : Repo) (braws sraws praws : Nat → RawResult)
    (ms1 ms2 ms3 : List Msg) (br pout : String)
    (hb : gitCall r.row r.col r.path branchArgs braws = (ms1, br, none))
    (hs : gitCall r.row (r.col + br.utf8ByteSize + 3) r.path statusArgs sraws = (ms2, "", none))
    (hp : gitCall r.row (r.col + br.utf8ByteSize + 3) r.path pullArgs praws = (ms3, pout, none)) :
    (∀ line, (goSplitNewline pout).find? changedLine = some line →
      (processRepo r braws sraws praws).getLast? =
        some (MsgKind.changed,
          ⟨goTrimSpace line, r.row, r.col + br.utf8ByteSize + 3, Color.magenta, Style.bold⟩)) ∧
    ((goSplitNewline pout).find? changedLine = none →
      (processRepo r braws sraws praws).getLast? =
        some (MsgKind.noChanges,
          ⟨"no changes", r.row, r.col + br.utf8ByteSize + 3, Color.blue, Style.normal⟩)) := by
  have key : processRepo r braws sraws praws =
      (ms1 ++ [(MsgKind.bracketOpen, ⟨"[", r.row, r.col, Color.black, Style.normal⟩),
               (MsgKind.branchName, ⟨br, r.row, r.col + 1, Color.black, Style.bold⟩),
               (MsgKind.bracketClose, ⟨"]", r.row, r.col + 1 + br.utf8ByteSize, Color.black, Style.normal⟩)]
        ++ ms2 ++ ms3)
        ++ [classifyPull r.row (r.col + br.utf8ByteSize + 3) (goSplitNewline pout)] := by
    rw [processRepo_branch_ok r braws sraws praws ms1 br hb,
        statusStep_clean r.row (r.col + br.utf8ByteSize + 3) r.path sraws praws ms2 hs,
        pullStep_ok r.row (r.col + br.utf8ByteSize + 3) r.path praws ms3 pout hp]
    simp [List.append_assoc]
  constructor
  · intro line hline
    rw [key, classifyPull_find_some r.row (r.col + br.utf8ByteSize + 3) (goSplitNewline pout) line hline]
    exact List.getLast?_concat _
  · intro hnone
    rw [key, classifyPull_find_none r.row (r.col + br.utf8ByteSize + 3) (goSplitNewline pout) hnone]
    exact List.getLast?_concat _

/-- C4 witness: a pull whose output holds a " changed, " summary line ends in
that line, trimmed, as the terminal message. -/
theorem c4_witness :
    (processRepo ⟨"p", 1, 13⟩ (okOracle "main") (okOracle "")
        (okOracle "Updating\n 3 files changed, 1 insertion(+)")).getLast? =
      some (MsgKind.changed,
        ⟨"3 files changed, 1 insertion(+)", 1, 20, Color.magenta, Style.bold⟩) := by
  have h := c4_pull_classification ⟨"p", 1, 13⟩ (okOracle "main") (okOracle "")
    (okOracle "Updating\n 3 files changed, 1 insertion(+)") [] [] []
    "main" "Updating\n 3 files changed, 1 insertion(+)" rfl rfl rfl
  exact h.1 " 3 files changed, 1 insertion(+)" (by decide)

/-- C6 (amended): on branch-read success with branch name `b`, the task emits
the three adjacent messages `"["` (neutral/normal), `b` (bold), `"]"`
(neutral/normal) at columns `col`, `col + 1`, `col + 1 + len(b)`, and the
column cursor used for every later message has advanced by `len(b) + 3`
(a 1-column gutter past the closing bracket), not by `len(b) + 4`. -/
theorem c6_branch_render (r : Repo) (braws sraws praws : Nat → RawResult)
    (ms1 : List Msg) (br : String)
    (hb : gitCall r.row r.col r.path branchArgs braws = (ms1, br, none)) :
    processRepo r braws sraws praws =
      ms1 ++ [(MsgKind.bracketOpen, ⟨"[", r.row, r.col, Color.black, Style.normal⟩),
              (MsgKind.branchName, ⟨br, r.row, r.col + 1, Color.black, Style.bold⟩),
              (MsgKind.bracketClose, ⟨"]", r.row, r.col + 1 + br.utf8ByteSize, Color.black, Style.normal⟩)]
        ++ statusStep r.row (r.col + (br.utf8ByteSize + 3)) r.path sraws praws := by
  rw [processRepo_branch_ok r braws sraws praws ms1 br hb, ← Nat.add_assoc]

/-- C6 witness: a concrete run renders the bracketed branch name and continues
at the advanced column. -/
theorem c6_witness :
    processRepo ⟨"p", 1, 13⟩ (okOracle "main") (okOracle "x") (okOracle "") =
      [] ++ [(MsgKind.bracketOpen, ⟨"[", 1, 13, Color.black, Style.normal⟩),
             (MsgKind.branchName, ⟨"main", 1, 14, Color.black, Style.bold⟩),
             (MsgKind.bracketClose, ⟨"]", 1, 18, Color.black, Style.normal⟩)]
        ++ statusStep 1 (13 + ("main".utf8ByteSize + 3)) "p" (okOracle "x") (okOracle "") :=
  c6_branch_render ⟨"p", 1, 13⟩ (okOracle "main") (okOracle "x") (okOracle "") [] "main" rfl

/-- C6 counterexample: with starting column 13 and branch "main" the terminal
message lands at column 20 = 13 + len("main") + 3, not at
13 + len("main") + 4 = 21 as the claim's arithmetic would require. -/
theorem c6_counterexample :
    ((processRepo ⟨"p", 1, 13⟩ (okOracle "main") (okOracle "") (okOracle "")).getLast?.map
      (fun m => m.2.col)) = some 20 ∧
    ¬ ((processRepo ⟨"p", 1, 13⟩ (okOracle "main") (okOracle "") (okOracle "")).getLast?.map
      (fun m => m.2.col)) = some (13 + "main".utf8ByteSize + 4) := by
  exact ⟨by decide, by decide⟩

/-- C1 (amended): a working copy whose pull fails on all 5 attempts surfaces a
terminal Failed message whose text embeds the final attempt's error text, and
the pull step emits exactly 5 retry-notice messages before it — one after each
failed attempt, the last included (not 4 as the claim states). -/
theorem c1_pull_exhausted (r : Repo) (braws sraws praws : Nat → RawResult)
    (ms1 ms2 : List Msg) (br : String) (cs : Nat → String)
    (hb : gitCall r.row r.col r.path branchArgs braws = (ms1, br, none))
    (hs : gitCall r.row (r.col + br.utf8ByteSize + 3) r.path statusArgs sraws = (ms2, "", none))
    (hp : ∀ j, j ≤ 4 → (praws j).failure = some (cs j)) :
    ∃ pre, processRepo r braws sraws praws =
        pre ++ pullStep r.row (r.col + br.utf8ByteSize + 3) r.path praws ∧
      (pullStep r.row (r.col + br.utf8ByteSize + 3) r.path praws).countP
          (fun m => decide (m.1 = MsgKind.retryNotice)) = 5 ∧
      (pullStep r.row (r.col + br.utf8ByteSize + 3) r.path praws).getLast? =
        some (failedMsg r.row (r.col + br.utf8ByteSize + 3)
          ("failed to pull: " ++ GPError.message ⟨cmdString pullArgs, cs 4⟩)) := by
  obtain ⟨hlen, hres⟩ :=
    gitCall_allFail r.row (r.col + br.utf8ByteSize + 3) r.path pullArgs praws cs hp
  have hmsgs := gitCall_msgs r.row (r.col + br.utf8ByteSize + 3) r.path pullArgs praws
  rcases hg : gitCall r.row (r.col + br.utf8ByteSize + 3) r.path pullArgs praws with ⟨ms3, out, err⟩
  rw [hg] at hlen hres hmsgs
  have hout : out = "" ∧ err = some ⟨cmdString pullArgs, cs 4⟩ := by
    simpa [Prod.ext_iff] using hres
  obtain ⟨hout1, hout2⟩ := hout
  subst hout1
  subst hout2
  have hpull := pullStep_fail r.row (r.col + br.utf8ByteSize + 3) r.path praws ms3 ""
    ⟨cmdString pullArgs, cs 4⟩ hg
  refine ⟨ms1 ++ [(MsgKind.bracketOpen, ⟨"[", r.row, r.col, Color.black, Style.normal⟩),
                  (MsgKind.branchName, ⟨br, r.row, r.col + 1, Color.black, Style.bold⟩),
                  (MsgKind.bracketClose, ⟨"]", r.row, r.col + 1 + br.utf8ByteSize, Color.black, Style.normal⟩)]
             ++ ms2, ?_, ?_, ?_⟩
  · rw [processRepo_branch_ok r braws sraws praws ms1 br hb,
        statusStep_clean r.row (r.col + br.utf8ByteSize + 3) r.path sraws praws ms2 hs]
    simp [List.append_assoc]
  · rw [hpull, List.countP_append]
    have hcnt : ms3.countP (fun m => decide (m.1 = MsgKind.retryNotice)) = ms3.length :=
      List.countP_eq_length.mpr (fun m hm => by simp [(hmsgs m hm).1])
    have hlen5 : ms3.length = 5 := by simpa using hlen
    simp [hcnt, hlen5, failedMsg]
  · rw [hpull]
    exact List.getLast?_concat _

/-- C1 witness: with branch and status succeeding immediately and every pull
attempt failing with "boom", the pull step emits 5 retry notices and then the
Failed message embedding the final error text. -/
theorem c1_witness :
    (pullStep 1 20 "p" (failOracle "boom")).countP
        (fun m => decide (m.1 = MsgKind.retryNotice)) = 5 ∧
    (pullStep 1 20 "p" (failOracle "boom")).getLast? =
      some (failedMsg 1 20 ("failed to pull: " ++ GPError.message ⟨cmdString pullArgs, "boom"⟩)) := by
  obtain ⟨pre, hh⟩ := c1_pull_exhausted ⟨"p", 1, 13⟩ (okOracle "main") (okOracle "")
    (failOracle "boom") [] [] "main" (fun _ => "boom") rfl rfl (fun j _ => rfl)
  exact ⟨hh.2.1, hh.2.2⟩

/-- C1 counterexample: in the concrete all-attempts-fail run the task emits 5
retry notices before the Failed message, not 4 as the claim states. -/
theorem c1_counterexample :
    (processRepo ⟨"p", 1, 13⟩ (okOracle "main") (okOracle "") (failOracle "boom")).countP
        (fun m => decide (m.1 = MsgKind.retryNotice)) = 5 ∧
    ¬ (processRepo ⟨"p", 1, 13⟩ (okOracle "main") (okOracle "") (failOracle "boom")).countP
        (fun m => decide (m.1 = MsgKind.retryNotice)) = 4 ∧
    (processRepo ⟨"p", 1, 13⟩ (okOracle "main") (okOracle "") (failOracle "boom")).getLast? =
      some (failedMsg 1 20 ("failed to pull: " ++ GPError.message ⟨cmdString pullArgs, "boom"⟩)) := by
  exact ⟨by decide, by decide, by decide⟩

/-- C5 (amended): every step goes through the Retrying Invoker — in particular
a failed branch-read attempt produces a retry notice and a silent retry, not a
terminal failure: when attempt 1 fails and attempt 2 succeeds the invoker
returns the second attempt's trimmed output, and the task carries on with the
bracketed branch rendering. -/
theorem c5_uniform_retry (r : Repo) (braws sraws praws : Nat → RawResult) (c : String)
    (h0 : (braws 0).failure = some c) (h1 : (braws 1).failure = none) :
    gitCall r.row r.col r.path branchArgs braws =
      ([retryMsg r.row r.col 1 ⟨cmdString branchArgs, c⟩],
       goTrimSpace (braws 1).output, none) ∧
    processRepo r braws sraws praws =
      [retryMsg r.row r.col 1 ⟨cmdString branchArgs, c⟩,
       (MsgKind.bracketOpen, ⟨"[", r.row, r.col, Color.black, Style.normal⟩),
       (MsgKind.branchName, ⟨goTrimSpace (braws 1).output, r.row, r.col + 1, Color.black, Style.bold⟩),
       (MsgKind.bracketClose, ⟨"]", r.row, r.col + 1 + (goTrimSpace (braws 1).output).utf8ByteSize,
         Color.black, Style.normal⟩)]
      ++ statusStep r.row (r.col + (goTrimSpace (braws 1).output).utf8ByteSize + 3)
          r.path sraws praws := by
  have hcall : gitCall r.row r.col r.path branchArgs braws =
      ([retryMsg r.row r.col 1 ⟨cmdString branchArgs, c⟩], goTrimSpace (braws 1).output, none) := by
    show gitGo r.row r.col r.path branchArgs braws 0 (3 + 1) = _
    rw [gitGo_succ_fail r.row r.col r.path branchArgs braws 0 c h0 3,
        gitGo_ok r.row r.col r.path branchArgs braws (0 + 1) h1 3]
  refine ⟨hcall, ?_⟩
  rw [processRepo_branch_ok r braws sraws praws
    [retryMsg r.row r.col 1 ⟨cmdString branchArgs, c⟩] (goTrimSpace (braws 1).output) hcall]
  rfl

/-- C5 witness: a branch-read whose first attempt fails and second succeeds
returns the branch after one retry notice. -/
theorem c5_witness :
    gitCall 1 13 "p" branchArgs (flakyOracle "lock" "main") =
      ([retryMsg 1 13 1 ⟨cmdString branchArgs, "lock"⟩],
       goTrimSpace (flakyOracle "lock" "main" 1).output, none) :=
  (c5_uniform_retry ⟨"p", 1, 13⟩ (flakyOracle "lock" "main") (okOracle "") (okOracle "")
    "lock" rfl rfl).1

/-- C5 counterexample: the branch-read invocation's first attempt fails, yet
the task is not terminal there — it emits one retry notice and finishes with
"no changes", refuting "terminal without any retry attempts". -/
theorem c5_counterexample :
    (flakyOracle "lock" "main" 0).failure = some "lock" ∧
    (processRepo ⟨"p", 1, 13⟩ (flakyOracle "lock" "main") (okOracle "") (okOracle "")).countP
        (fun m => decide (m.1 = MsgKind.retryNotice)) = 1 ∧
    (processRepo ⟨"p", 1, 13⟩ (flakyOracle "lock" "main") (okOracle "") (okOracle "")).getLast? =
      some (MsgKind.noChanges, ⟨"no changes", 1, 20, Color.blue, Style.normal⟩) := by
  exact ⟨rfl, by decide, by decide⟩

/-- C8: for every received message the Writer sets color/style, positions the
cursor at the message's absolute row/column, prints only the part of the text
before the first newline, and erases to end of line; after the queue is
drained it resets the style and parks the cursor at column 1, one row below
the maximum row seen among the received messages. -/
theorem c8_writer_protocol (msgs : List MsgInfo)
    (h1 : ∀ m ∈ msgs, 1 ≤ m.row) (h2 : msgs ≠ []) :
    processMsgs msgs = (msgs.map msgOps).flatten ++
      [TermOp.reset,
       TermOp.position ((msgs.map MsgInfo.row).foldl Nat.max 0 + 1) 1] := by
  have hmax : (msgs.map MsgInfo.row).foldl Nat.max 1 = (msgs.map MsgInfo.row).foldl Nat.max 0 := by
    have e1 : (1 : Nat) = Nat.max 1 0 := rfl
    rw [e1, foldl_max_init (msgs.map MsgInfo.row) 1 0]
    rcases msgs with _ | ⟨m, rest⟩
    · exact absurd rfl h2
    · have hm : m.row ∈ (m :: rest).map MsgInfo.row := by simp
      have hge := le_foldl_max ((m :: rest).map MsgInfo.row) m.row 0 hm
      have h1m := h1 m (List.mem_cons_self m rest)
      have hX : 1 ≤ ((m :: rest).map MsgInfo.row).foldl Nat.max 0 := Nat.le_trans h1m hge
      show (if 1 ≤ ((m :: rest).map MsgInfo.row).foldl Nat.max 0 then
        ((m :: rest).map MsgInfo.row).foldl Nat.max 0 else 1) = _
      rw [if_pos hX]
  rw [processMsgs, processMsgsGo_spec msgs 1, foldl_stepmax_eq_max msgs 1, hmax]

/-- C8 witness: the protocol at a concrete one-message queue. -/
theorem c8_witness :
    processMsgs [⟨"hi", 2, 3, Color.red, Style.bold⟩] =
      ([(⟨"hi", 2, 3, Color.red, Style.bold⟩ : MsgInfo)].map msgOps).flatten ++
        [TermOp.reset,
         TermOp.position ((([(⟨"hi", 2, 3, Color.red, Style.bold⟩ : MsgInfo)]).map
           MsgInfo.row).foldl Nat.max 0 + 1) 1] :=
  c8_writer_protocol [⟨"hi", 2, 3, Color.red, Style.bold⟩] (by simp) (by simp)

/-- C9: rendering any two message sequences that agree on the per-row
subsequences (the relative order of messages targeting the same row) onto a
cleared screen produces the same final screen: writes addressed to different
rows commute. -/
theorem c9_cross_row_commute (l1 l2 : List MsgInfo)
    (h : ∀ rr : Nat, l1.filter (fun m => decide (m.row = rr)) =
      l2.filter (fun m => decide (m.row = rr))) :
    (runWriter l1).screen = (runWriter l2).screen := by
  funext r c
  show (applyOps clearedState (processMsgsGo 1 l1)).screen r c =
    (applyOps clearedState (processMsgsGo 1 l2)).screen r c
  rw [writer_screen_pointwise l1 1 clearedState r c,
      writer_screen_pointwise l2 1 clearedState r c,
      foldl_pointStep_filter r c l1 (clearedState.screen r c),
      foldl_pointStep_filter r c l2 (clearedState.screen r c), h r]

/-- C9 witness: swapping two messages that target different rows leaves the
final screen unchanged. -/
theorem c9_witness :
    (runWriter [⟨"a", 1, 1, Color.red, Style.bold⟩, ⟨"b", 2, 1, Color.blue, Style.normal⟩]).screen =
    (runWriter [⟨"b", 2, 1, Color.blue, Style.normal⟩, ⟨"a", 1, 1, Color.red, Style.bold⟩]).screen :=
  c9_cross_row_commute
    [⟨"a", 1, 1, Color.red, Style.bold⟩, ⟨"b", 2, 1, Color.blue, Style.normal⟩]
    [⟨"b", 2, 1, Color.blue, Style.normal⟩, ⟨"a", 1, 1, Color.red, Style.bold⟩]
    (by
      intro rr
      by_cases h1 : rr = 1
      · subst h1; rfl
      · by_cases h2 : rr = 2
        · subst h2; rfl
        · have d1 : decide ((1 : Nat) = rr) = false := decide_eq_false (fun hh => h1 hh.symm)
          have d2 : decide ((2 : Nat) = rr) = false := decide_eq_false (fun hh => h2 hh.symm)
          simp [List.filter_cons, d1, d2])
